import Mathlib

/-!
Verification development for the git-phabricator-mirror reconciliation engine
(Go packages arcanist, mirror and mirror/review).

Modelling conventions:
* Go strings are modelled as Lean strings; character-level operations
  (slicing, splitting) work on the underlying character list.
* Go maps are modelled as association lists with last-write-wins semantics.
* Remote Conduit calls that mutate Phabricator state are modelled as an
  explicit trace of Mutation values together with an explicit RemoteState;
  read-only calls are modelled by consulting RemoteState or a fixed Config.
* Fatal error paths (log.Panic) abort the process, so the model covers the
  completed executions: repository helpers that the source treats as fatal
  on failure are modelled as total functions supplied by Config, while
  helpers whose failure the source handles (GetBaseCommit, GetHeadCommit)
  are modelled as Option values.
-/

/-- Character-level model of Go string concatenation. -/
def goConcat (a b : String) : String := ⟨a.data ++ b.data⟩

/-- Character-level model of the Go slice expression s[0:n]. -/
def goTake (s : String) (n : Nat) : String := ⟨s.data.take n⟩

/-- Model of the Go expression strings.Split(s, "\n")[0]: the segment of s
before its first newline. -/
def firstLine (s : String) : String := ⟨s.data.takeWhile (fun c => c ≠ '\n')⟩

/-- Fields of the git-appraise comment.Range record used by the mirror. -/
structure CommentRange where
  startLine : Nat
  deriving DecidableEq, Repr

/-- Fields of the git-appraise comment.Location record used by the mirror. -/
structure CommentLocation where
  commit : String
  path : String
  range : Option CommentRange
  deriving DecidableEq, Repr

/-- Fields of the git-appraise comment.Comment record used by the mirror.
The resolved flag has pointer semantics in Go: none models a nil pointer. -/
structure Comment where
  timestamp : String
  author : String
  location : Option CommentLocation
  description : String
  resolved : Option Bool
  deriving DecidableEq, Repr

/-- The git-appraise review.CommentThread record: a comment with its reply
threads. -/
inductive CommentThread where
  | mk (hash : String) (comment : Comment) (children : List CommentThread)

/-- The root comment of a thread. -/
def CommentThread.comment : CommentThread → Comment
  | .mk _ c _ => c

/-- The reply threads of a thread. -/
def CommentThread.children : CommentThread → List CommentThread
  | .mk _ _ ts => ts

/-- Modelled from the spec: the comment utilities of package mirror/review
(their source file is not under src, only its test is). Two resolved flags
match when both are absent, or both are present with equal boolean value. -/
def resolvedStatesMatch : Option Bool → Option Bool → Bool
  | none, none => true
  | some a, some b => a == b
  | _, _ => false

/-- Modelled from the spec: a description q is a prefix-wrapped quotation of
a description d when q consists of a nonempty attribution text followed by
the original text d. -/
def isQuotedCopy (q d : String) : Bool :=
  d.data.isSuffixOf q.data && decide (d.data.length < q.data.length)

/-- Modelled from the spec: Overlaps of package mirror/review (its source
file is not under src). Two comments overlap when they share the same
timestamp token, their resolved flags match, and either one description is a
prefix-wrapped quotation of the other or the raw descriptions are equal. -/
def Overlaps (a b : Comment) : Bool :=
  a.timestamp == b.timestamp &&
  resolvedStatesMatch a.resolved b.resolved &&
  (isQuotedCopy a.description b.description ||
   isQuotedCopy b.description a.description ||
   a.description == b.description)

/-- Modelled from the spec: QuoteDescription of package mirror/review (its
source file is not under src). It wraps the original text with an
attribution marker naming the author. -/
def QuoteDescription (c : Comment) : String :=
  goConcat (goConcat c.author " wrote:\n\n") c.description

/-- overlapsAny from the arcanist package: whether the comment c overlaps
any of the existing comments. -/
def overlapsAny (c : Comment) (existingComments : List Comment) : Bool :=
  existingComments.any (fun existing => Overlaps c existing)

mutual
/-- Modelled from the spec: one thread of FilterOverlapping of package
mirror/review (its source file is not under src). The walk visits the
parent before the children and the children in their original order, and
keeps exactly the comments that overlap nothing in the existing set. -/
def filterThread (existing : List Comment) : CommentThread → List Comment
  | .mk _ c children =>
    (if overlapsAny c existing then [] else [c]) ++ filterThreadList existing children
/-- Modelled from the spec: FilterOverlapping over a list of threads. -/
def filterThreadList (existing : List Comment) : List CommentThread → List Comment
  | [] => []
  | t :: ts => filterThread existing t ++ filterThreadList existing ts
end

/-- Modelled from the spec: FilterOverlapping of package mirror/review (its
source file is not under src). -/
def FilterOverlapping (threads : List CommentThread) (existing : List Comment) : List Comment :=
  filterThreadList existing threads

mutual
/-- The flat preorder traversal of one comment thread. -/
def flattenThread : CommentThread → List Comment
  | .mk _ c children => c :: flattenThreadList children
/-- The flat preorder traversal of a list of comment threads. -/
def flattenThreadList : List CommentThread → List Comment
  | [] => []
  | t :: ts => flattenThread t ++ flattenThreadList ts
end

/-- Phabricator's marker for commit hashes in the hash list of a review. -/
def commitHashType : String := "gtcm"

/-- Differential limits review titles to this many characters. -/
def differentialTitleLengthLimit : Nat := 256

/-- Differential status string for a review that needs review. -/
def differentialNeedsReviewStatus : String := "0"

/-- Differential status string for a closed review. -/
def differentialClosedStatus : String := "3"

/-- Differential status string for an abandoned review. -/
def differentialAbandonedStatus : String := "4"

/-- The fields of the DifferentialReview record that the mirror reads. -/
structure DifferentialReview where
  id : String
  title : String
  status : String
  hashes : List (List String)
  diffs : List String
  deriving DecidableEq, Repr

/-- isClosed from the arcanist package. -/
def DifferentialReview.isClosed (differentialReview : DifferentialReview) : Bool :=
  differentialReview.status == differentialClosedStatus ||
  differentialReview.status == differentialAbandonedStatus

/-- The hash pair Phabricator stores for a commit. -/
def gtcmPair (commit : String) : List String := [commitHashType, commit]

/-- The hash scan the source performs on a hash list: some pair has exactly
two elements, the first commitHashType and the second the given commit.
Such a pair is exactly the two-element list gtcmPair commit. -/
def hashesContain (hashes : List (List String)) (commit : String) : Bool :=
  hashes.any (fun hashPair => hashPair == gtcmPair commit)

/-- The fields of the git-appraise request.Request record that the mirror
reads. -/
structure Request where
  description : String
  reviewers : List String
  requester : String
  targetRef : String
  reviewRef : String
  deriving DecidableEq, Repr

/-- The fields of the git-appraise review.Review record that the mirror
reads. The base and head commits are computed through the repository and
are supplied by Config. -/
structure Review where
  revision : String
  request : Request
  comments : List CommentThread
  submitted : Bool

/-- The revisionFields record sent by differential.createrevision. -/
structure revisionFields where
  title : String
  summary : String
  reviewers : List String
  ccs : List String
  deriving DecidableEq, Repr

/-- The field computation of createDifferentialRevision: the title is the
first line of the description, truncated when longer than the limit by
slicing to limit minus four characters and appending a three-character
ellipsis; the summary is the full description exactly when the title
differs from it; reviewer and CC identities are resolved through queryUser
and unresolvable identities are skipped. -/
def createRevisionFields (queryUser : String → Option String) (req : Request) : revisionFields :=
  let title0 := firstLine req.description
  let title :=
    if title0.length > differentialTitleLengthLimit then
      goConcat (goTake title0 (differentialTitleLengthLimit - 4)) "..."
    else title0
  { title := title
    summary := if title ≠ req.description then req.description else ""
    reviewers := req.reviewers.filterMap queryUser
    ccs := if req.requester ≠ "" then (queryUser req.requester).toList else [] }

/-- The createInlineRequest record of differential.createinline. -/
structure createInlineRequest where
  revisionID : String
  diffID : String
  filePath : String
  lineNumber : Nat
  content : String
  isNewFile : Nat
  deriving DecidableEq, Repr

/-- The createCommentRequest record of differential.createcomment. -/
structure createCommentRequest where
  revisionID : String
  message : String
  action : String
  attachInlines : Bool
  deriving DecidableEq, Repr

mutual
/-- buildCommentRequestsForThread from the arcanist package: an inline
request for the root comment unless it overlaps an existing comment,
followed by the requests of the children in order. -/
def buildCommentRequestsForThread (differentialReview : DifferentialReview)
    (existingComments : List Comment) :
    CommentThread → (diffID : String) → (path : String) → (lineNumber : Nat) →
      List createInlineRequest
  | .mk _ c children, diffID, path, lineNumber =>
    (if overlapsAny c existingComments then []
     else
       [{ revisionID := differentialReview.id, diffID := diffID, filePath := path,
          lineNumber := lineNumber, content := QuoteDescription c, isNewFile := 1 }]) ++
    buildCommentRequestsForThreadChildren differentialReview existingComments children
      diffID path lineNumber
/-- The children loop of buildCommentRequestsForThread. -/
def buildCommentRequestsForThreadChildren (differentialReview : DifferentialReview)
    (existingComments : List Comment) :
    List CommentThread → (diffID : String) → (path : String) → (lineNumber : Nat) →
      List createInlineRequest
  | [], _, _, _ => []
  | t :: ts, diffID, path, lineNumber =>
    buildCommentRequestsForThread differentialReview existingComments t diffID path lineNumber ++
    buildCommentRequestsForThreadChildren differentialReview existingComments ts diffID path lineNumber
end

/-- The per-thread dispatch of buildCommentRequests: threads whose root
comment has no location or an empty path are skipped; the line number is
the start line of the range when present, one otherwise; threads whose
commit is absent from the commit-to-diff map (empty lookup) are skipped. -/
def buildCommentRequestsForRootThread (differentialReview : DifferentialReview)
    (existingComments : List Comment) (commitToDiffMap : String → String)
    (c : CommentThread) : List createInlineRequest :=
  match c.comment.location with
  | some loc =>
    if loc.path ≠ "" then
      let lineNumber := match loc.range with | some rg => rg.startLine | none => 1
      let diffID := commitToDiffMap loc.commit
      if diffID ≠ "" then
        buildCommentRequestsForThread differentialReview existingComments c diffID
          loc.path lineNumber
      else []
    else []
  | none => []

/-- buildCommentRequests from the arcanist package. The Go map argument is
modelled as a lookup function returning the empty string for absent keys. -/
def buildCommentRequests (differentialReview : DifferentialReview)
    (commentThreads : List CommentThread) (existingComments : List Comment)
    (commitToDiffMap : String → String) :
    List createInlineRequest × List createCommentRequest :=
  let inlineRequests := commentThreads.foldr
    (fun c acc =>
      buildCommentRequestsForRootThread differentialReview existingComments commitToDiffMap c
        ++ acc) []
  let commentRequests :=
    if inlineRequests.length > 0 then
      [{ revisionID := differentialReview.id, message := "", action := "comment",
         attachInlines := true }]
    else ([] : List createCommentRequest)
  (inlineRequests, commentRequests)

/-- The fields of the git-appraise ci.Report record that the mirror reads. -/
structure Report where
  agent : String
  url : String
  status : String
  deriving DecidableEq, Repr

/-- translateReportStatusToDifferentialUnitResult from the arcanist
package. -/
def translateReportStatusToDifferentialUnitResult (status : String) : String :=
  if status = "success" then "pass"
  else if status = "failure" then "fail"
  else "skip"

/-- The differentialUnitDiffProperty record of the arc:unit diff property. -/
structure differentialUnitDiffProperty where
  name : String
  link : String
  result : String
  deriving DecidableEq, Repr

/-- generateUnitDiffProperty from the arcanist package. The source marshals
the property (wrapped in a one-element list) to a JSON string and returns
the empty string when the report has no URL; marshaling is modelled by the
structured value, with none exactly when the source returns the empty
string. -/
def generateUnitDiffProperty (report : Report) : Option differentialUnitDiffProperty :=
  if report.url = "" then none
  else some { name := report.agent, link := report.url,
              result := translateReportStatusToDifferentialUnitResult report.status }

/-- The fields of the git-appraise analyses location range read by the
mirror. -/
structure AnalysisRange where
  startLine : Int
  deriving DecidableEq, Repr

/-- The fields of the git-appraise analyses location read by the mirror. -/
structure AnalysisLocation where
  path : String
  range : Option AnalysisRange
  deriving DecidableEq, Repr

/-- The fields of a git-appraise analysis note read by the mirror. -/
structure AnalysisNote where
  category : String
  description : String
  location : Option AnalysisLocation
  deriving DecidableEq, Repr

/-- The git-appraise analyses.AnalyzeResponse record read by the mirror. -/
structure AnalyzeResponse where
  notes : List AnalysisNote
  deriving DecidableEq, Repr

/-- The LintDiffProperty record of the arc:lint diff property. -/
structure LintDiffProperty where
  code : String
  severity : String
  path : String
  line : Int
  description : String
  deriving DecidableEq, Repr

/-- generateLintDiffProperty from the arcanist package: one property per
note that carries a location with a range; the source returns the empty
string when no such note exists, modelled by the empty list. -/
def generateLintDiffProperty (lintResults : List AnalyzeResponse) : List LintDiffProperty :=
  lintResults.foldr
    (fun analyzeResponse acc =>
      analyzeResponse.notes.foldr
        (fun note acc2 =>
          match note.location with
          | some loc =>
            match loc.range with
            | some rg =>
              { code := note.category, severity := "warning", path := loc.path,
                line := rg.startLine, description := note.description } :: acc2
            | none => acc2
          | none => acc2) acc) []

/-- One remote Conduit call that mutates Phabricator state. The close call
carries the review identifier string the source converts with Atoi; the
diff property calls carry the structured property values the source
marshals to JSON. -/
inductive Mutation where
  | closeRevision (id : String)
  | createDiff (base : String) (head : String)
  | createRevision (diffID : Nat) (fields : revisionFields)
  | updateRevision (id : String) (diffID : String)
  | createInline (request : createInlineRequest)
  | createComment (request : createCommentRequest)
  | setUnitProperty (diffID : Nat) (property : differentialUnitDiffProperty)
  | setLintProperty (diffID : Nat) (properties : List LintDiffProperty)
  deriving DecidableEq, Repr

/-- A Differential diff as the mirror reads it back: its identifier and the
last commit of its range (the correlation key used by findCommitForDiff). -/
structure Diff where
  id : Nat
  lastCommit : String
  deriving DecidableEq, Repr

/-- The remote Phabricator state visible to the mirror: the revisions, the
diffs, and fresh-identifier counters. -/
structure RemoteState where
  revisions : List DifferentialReview
  diffs : List Diff
  nextDiffID : Nat
  nextRevisionID : Nat
  deriving DecidableEq, Repr

/-- The fixed environment of one reconciliation pass: the repository
helpers and the remote read-only translations. queryUser models the
Conduit user query (none covers both the error and the not-found case,
which the source logs and skips). remoteComments models LoadComments, whose
source file is not under src: the comments Phabricator reports for a
review identifier. diffRefused models the no-diff response of
differential.creatediff, which the source treats as a silent ignore.
mergeBase models repo.MergeBase, which the source treats as fatal on
failure, so it is total here. baseCommit and headCommit model
review.GetBaseCommit and review.GetHeadCommit, whose failures the source
handles by skipping the review. ciReport and lintReport model the latest
valid CI and analysis reports per commit read from git notes (none covers
both the no-report and the error case, which the source logs and skips). -/
structure Config where
  queryUser : String → Option String
  remoteComments : String → List Comment
  diffRefused : String → String → Bool
  mergeBase : String → String → String
  baseCommit : Option String
  headCommit : Option String
  ciReport : String → Option Report
  lintReport : String → Option (List AnalyzeResponse)

/-- listDifferentialReviewsOrDie: the differential.query call filtered by
the commit hash, modelled as the revisions whose hash set contains the
hash pair of the given revision. -/
def listDifferentialReviews (st : RemoteState) (revision : String) : List DifferentialReview :=
  st.revisions.filter (fun differentialReview => hashesContain differentialReview.hashes revision)

/-- Character-level model of strconv.Atoi on the non-negative numeric
identifier strings the mirror handles: some value for a non-empty string
of decimal digits, none otherwise (the sign handling of Atoi is not needed
for Phabricator identifiers, which are never negative). -/
def atoi (s : String) : Option Nat :=
  if s.data ≠ [] ∧ s.data.all (fun c => c.isDigit) then
    some (s.data.foldl (fun acc c => acc * 10 + (c.toNat - 48)) 0)
  else none

/-- findCommitForDiff from the arcanist package: the empty string when the
identifier does not parse or the diff is unknown, the last commit of the
diff otherwise. readDiff is code of this repository not under src and is
modelled from the spec: a diff carries exactly one last-commit identity. -/
def findCommitForDiff (st : RemoteState) (diffIDString : String) : String :=
  match atoi diffIDString with
  | none => ""
  | some diffID =>
    match st.diffs.find? (fun diff => diff.id == diffID) with
    | some diff => diff.lastCommit
    | none => ""

/-- Association list with last-write-wins semantics, modelling the
population of a Go map by successive assignments. -/
def lastWins {α : Type} (pairs : List (String × α)) : List (String × α) :=
  pairs.foldl (fun acc kv => acc.filter (fun kv2 => kv2.1 != kv.1) ++ [kv]) []

/-- Go map lookup over an association list, returning the empty string for
absent keys. -/
def mapLookup (pairs : List (String × String)) (key : String) : String :=
  match pairs.find? (fun kv => kv.1 == key) with
  | some kv => kv.2
  | none => ""

/-- reportUnitResults from the arcanist package: posts the arc:unit diff
property when generateUnitDiffProperty is non-empty. -/
def reportUnitResults (diffID : Nat) (unitReport : Report) : List Mutation :=
  match generateUnitDiffProperty unitReport with
  | some property => [Mutation.setUnitProperty diffID property]
  | none => []

/-- reportLintResults from the arcanist package: posts the arc:lint diff
property when generateLintDiffProperty is non-empty. -/
def reportLintResults (diffID : Nat) (lintResults : List AnalyzeResponse) : List Mutation :=
  let properties := generateLintDiffProperty lintResults
  if properties.isEmpty then [] else [Mutation.setLintProperty diffID properties]

/-- mirrorStatusesForEachCommit from the arcanist package: for every entry
of the commit-to-diff-identifier map, mirror the latest CI report and the
latest analysis report. Go map iteration order is unspecified; the model
iterates the association list. -/
def mirrorStatusesForEachCommit (cfg : Config) (commitToDiffIDMap : List (String × Nat)) :
    List Mutation :=
  commitToDiffIDMap.foldr
    (fun entry acc =>
      (match cfg.ciReport entry.1 with
       | some latestCIReport => reportUnitResults entry.2 latestCIReport
       | none => []) ++
      (match cfg.lintReport entry.1 with
       | some lintResults => reportLintResults entry.2 lintResults
       | none => []) ++ acc) []

/-- mirrorCommentsIntoReview from the arcanist package: build the
commit-to-diff maps from the diffs of the review, mirror CI and analysis
statuses, then post the inline and top-level comment requests built
against the existing remote comments. -/
def mirrorCommentsIntoReview (cfg : Config) (st : RemoteState)
    (differentialReview : DifferentialReview) (r : Review) : List Mutation :=
  let pairs := differentialReview.diffs.map
    (fun diffIDString => (findCommitForDiff st diffIDString, diffIDString))
  let commitToDiffMap := lastWins pairs
  let commitToDiffIDMap := lastWins (pairs.filterMap
    (fun kv => (atoi kv.2).map (fun diffID => (kv.1, diffID))))
  let existingComments := cfg.remoteComments differentialReview.id
  let requests := buildCommentRequests differentialReview r.comments existingComments
    (mapLookup commitToDiffMap)
  mirrorStatusesForEachCommit cfg commitToDiffIDMap ++
    requests.1.map Mutation.createInline ++
    requests.2.map Mutation.createComment

/-- The remote effect of adding a freshly created diff. -/
def addDiff (st : RemoteState) (diff : Diff) : RemoteState :=
  { st with diffs := st.diffs ++ [diff], nextDiffID := st.nextDiffID + 1 }

/-- The element transform applied by differential.updaterevision: the
updated revision gains the hash pair of the last commit of the attached
diff and the diff identifier. Modelled from the spec: the hash set of a
remote revision identifies every commit ever attached to it. -/
def attachFun (revisionID : String) (head : String) (diffIDString : String)
    (v : DifferentialReview) : DifferentialReview :=
  if v.id == revisionID then
    { v with hashes := v.hashes ++ [gtcmPair head], diffs := v.diffs ++ [diffIDString] }
  else v

/-- The remote effect of differential.updaterevision. -/
def attachDiffToRevision (st : RemoteState) (revisionID : String) (diff : Diff) : RemoteState :=
  { st with revisions := st.revisions.map (attachFun revisionID diff.lastCommit (toString diff.id)) }

/-- The remote effect of differential.close on the reviews being closed. -/
def closeReviews (st : RemoteState) (toClose : List DifferentialReview) : RemoteState :=
  { st with
    revisions := st.revisions.map (fun v =>
      if toClose.any (fun d => d.id == v.id) then { v with status := differentialClosedStatus }
      else v) }

/-- Modelled from the spec: createDifferentialDiff, whose source file is
not under src. Per the spec the remote either produces a diff for the
given base-to-head range or answers with a no-diff response that the
caller treats as a silent ignore; the call itself is recorded in the
trace either way. -/
def createDifferentialDiff (cfg : Config) (st : RemoteState) (mergeBase headRevision : String) :
    List Mutation × Option Diff × RemoteState :=
  if cfg.diffRefused mergeBase headRevision then
    ([Mutation.createDiff mergeBase headRevision], none, st)
  else
    let diff : Diff := { id := st.nextDiffID, lastCommit := headRevision }
    ([Mutation.createDiff mergeBase headRevision], some diff, addDiff st diff)

/-- updateReviewDiffs from the arcanist package: nothing for a closed
review; only comment and status mirroring when the hash set of the review
already contains the head commit; otherwise create a diff for the merge
base to head range and, unless the remote refused the diff, attach it via
differential.updaterevision. -/
def updateReviewDiffs (cfg : Config) (st : RemoteState)
    (differentialReview : DifferentialReview) (headCommit : String) (req : Request)
    (r : Review) : List Mutation × RemoteState :=
  if differentialReview.isClosed then ([], st)
  else
    let mergeBase := cfg.mergeBase req.targetRef headCommit
    if hashesContain differentialReview.hashes headCommit then
      (mirrorCommentsIntoReview cfg st differentialReview r, st)
    else
      match createDifferentialDiff cfg st mergeBase headCommit with
      | (ms, none, st') => (ms, st')
      | (ms, some diff, st') =>
        (ms ++ [Mutation.updateRevision differentialReview.id (toString diff.id)],
         attachDiffToRevision st' differentialReview.id diff)

/-- The update loop of EnsureRequestExists: updateReviewDiffs for each
existing review in order, threading the remote state. -/
def updateAllReviewDiffs (cfg : Config) (req : Request) (r : Review) (headCommit : String) :
    RemoteState → List DifferentialReview → List Mutation × RemoteState
  | st, [] => ([], st)
  | st, existing :: rest =>
    let step := updateReviewDiffs cfg st existing headCommit req r
    let restResult := updateAllReviewDiffs cfg req r headCommit step.2 rest
    (step.1 ++ restResult.1, restResult.2)

/-- EnsureRequestExists from the arcanist package, as a function from the
environment, the remote state, the closed-revisions cache and the local
review to the trace of remote mutations, the new remote state and the new
cache. The closedRevisionsMap is modelled as the list of cached revision
identifiers. The fatal error paths of the source (malformed responses,
explicit remote errors) abort the process and are outside this model of
completed executions. -/
def EnsureRequestExists (cfg : Config) (st : RemoteState) (closedRevisions : List String)
    (r : Review) : List Mutation × RemoteState × List String :=
  let revision := r.revision
  let req := r.request
  if closedRevisions.contains revision then ([], st, closedRevisions)
  else
    let existingReviews := listDifferentialReviews st revision
    if r.submitted then
      let toClose := existingReviews.filter (fun differentialReview => !differentialReview.isClosed)
      (toClose.map (fun differentialReview => Mutation.closeRevision differentialReview.id),
       closeReviews st toClose, revision :: closedRevisions)
    else
      match cfg.baseCommit with
      | none => ([], st, closedRevisions)
      | some base =>
        match cfg.headCommit with
        | none => ([], st, closedRevisions)
        | some head =>
          if existingReviews.isEmpty then
            match createDifferentialDiff cfg st base revision with
            | (ms, none, st') => (ms, st', closedRevisions)
            | (ms, some diff, st') =>
              let fields := createRevisionFields cfg.queryUser req
              let newRevision : DifferentialReview :=
                { id := toString st'.nextRevisionID, title := fields.title,
                  status := differentialNeedsReviewStatus,
                  hashes := [gtcmPair diff.lastCommit], diffs := [toString diff.id] }
              let st2 : RemoteState :=
                { st' with
                  revisions := st'.revisions ++ [newRevision]
                  nextRevisionID := st'.nextRevisionID + 1 }
              let upd := updateAllReviewDiffs cfg req r head st2 (listDifferentialReviews st2 revision)
              (ms ++ [Mutation.createRevision diff.id fields] ++ upd.1, upd.2, closedRevisions)
          else
            let upd := updateAllReviewDiffs cfg req r head st existingReviews
            (upd.1, upd.2, closedRevisions)

/-- The mutations that create, update or close a revision: the ones the
amended idempotence claim rules out on a repeated call. -/
def isLifecycleMutation : Mutation → Bool
  | .closeRevision _ => true
  | .createRevision _ _ => true
  | .updateRevision _ _ => true
  | _ => false

/-- The mutations issued by comment and status mirroring. -/
def isMirrorMutation : Mutation → Bool
  | .createInline _ => true
  | .createComment _ => true
  | .setUnitProperty _ _ => true
  | .setLintProperty _ _ => true
  | _ => false

/-- A review whose reconciliation step can no longer mutate the revision:
it is closed, or its hash set already contains the head commit, or the
remote refuses the diff for its merge-base-to-head range. -/
def stableFor (cfg : Config) (req : Request) (headCommit : String)
    (differentialReview : DifferentialReview) : Prop :=
  differentialReview.isClosed = true ∨
  hashesContain differentialReview.hashes headCommit = true ∨
  cfg.diffRefused (cfg.mergeBase req.targetRef headCommit) headCommit = true

/-- A description consisting of one line of three hundred characters. -/
def longDescription : String := ⟨List.replicate 300 'a'⟩

/-- A concrete review request whose first description line exceeds the
title length limit. -/
def longRequest : Request :=
  { description := longDescription, reviewers := [], requester := "",
    targetRef := "refs/heads/master", reviewRef := "" }

/-- A concrete two-line review request whose first line is short. -/
def twoLineRequest : Request :=
  { description := "Fix bug\nDetails here", reviewers := [], requester := "",
    targetRef := "refs/heads/master", reviewRef := "" }

/-- A concrete remote review used to instantiate comment-request building. -/
def sampleDifferentialReview : DifferentialReview :=
  { id := "41", title := "t", status := "0", hashes := [], diffs := [] }

/-- A concrete comment thread whose root comment has no location. -/
def threadNoLocation : CommentThread :=
  .mk "0" ⟨"012345", "a@b.c", none, "d", none⟩ []

/-- A concrete comment thread anchored to a file path on commit c1. -/
def threadAnchored : CommentThread :=
  .mk "1" ⟨"012345", "a@b.c", some ⟨"c1", "f.txt", some ⟨3⟩⟩, "d", none⟩ []

/-- A concrete commit-to-diff map knowing only commit c1. -/
def sampleCommitToDiffMap : String → String :=
  fun commit => if commit = "c1" then "9" else ""

/-- A concrete review request for the reconciliation scenarios. -/
def sampleRequest : Request :=
  { description := "Fix bug", reviewers := [], requester := "",
    targetRef := "refs/heads/master", reviewRef := "refs/review" }

/-- A concrete environment: base b1, head h1, no reports, no remote
comments, and a remote that never refuses diffs. -/
def sampleConfig : Config :=
  { queryUser := fun _ => none, remoteComments := fun _ => [],
    diffRefused := fun _ _ => false, mergeBase := fun _ _ => "mb",
    baseCommit := some "b1", headCommit := some "h1",
    ciReport := fun _ => none, lintReport := fun _ => none }

/-- The sample environment with one CI report (with a URL) on commit h1. -/
def ciConfig : Config :=
  { queryUser := fun _ => none, remoteComments := fun _ => [],
    diffRefused := fun _ _ => false, mergeBase := fun _ _ => "mb",
    baseCommit := some "b1", headCommit := some "h1",
    ciReport := fun commit =>
      if commit = "h1" then some { agent := "ci", url := "http://ci/1", status := "success" }
      else none,
    lintReport := fun _ => none }

/-- A concrete open remote revision whose hash set contains both the
review revision r1 and the head commit h1, with one diff. -/
def openReviewH1 : DifferentialReview :=
  { id := "11", title := "t", status := "0",
    hashes := [["gtcm", "r1"], ["gtcm", "h1"]], diffs := ["7"] }

/-- A concrete remote state holding openReviewH1 and its diff. -/
def sampleRemoteState : RemoteState :=
  { revisions := [openReviewH1], diffs := [{ id := 7, lastCommit := "h1" }],
    nextDiffID := 8, nextRevisionID := 12 }

/-- How one revision record can evolve across a reconciliation pass for a
fixed head commit: identity and status are preserved, the hash set only
grows, and a record that changed at all gained the head hash pair. -/
def revisionGrowth (headCommit : String) (v v' : DifferentialReview) : Prop :=
  v'.id = v.id ∧ v'.status = v.status ∧ (∀ pair ∈ v.hashes, pair ∈ v'.hashes) ∧
  (v' = v ∨ gtcmPair headCommit ∈ v'.hashes)

/-- The remote state after the success path of the create branch of
EnsureRequestExists: the fresh diff for the base-to-revision range and the
revision created from it (carrying the hash pair of the last commit of the
diff, per the remote data model of the spec). -/
def createdState (cfg : Config) (st : RemoteState) (r : Review) : RemoteState :=
  let diff : Diff := { id := st.nextDiffID, lastCommit := r.revision }
  let st' := addDiff st diff
  let fields := createRevisionFields cfg.queryUser r.request
  { st' with
    revisions := st'.revisions ++
      [{ id := toString st'.nextRevisionID, title := fields.title,
         status := differentialNeedsReviewStatus,
         hashes := [gtcmPair diff.lastCommit], diffs := [toString diff.id] }]
    nextRevisionID := st'.nextRevisionID + 1 }

/-- A concrete pending local review of revision r1. -/
def sampleReview : Review :=
  { revision := "r1", request := sampleRequest, comments := [], submitted := false }

/-- The same local review after submission. -/
def submittedReview : Review :=
  { revision := "r1", request := sampleRequest, comments := [], submitted := true }

theorem resolvedStatesMatch_comm (a b : Option Bool) :
    resolvedStatesMatch a b = resolvedStatesMatch b a := by
  cases a <;> cases b <;> simp [resolvedStatesMatch, Bool.beq_comm]

theorem resolvedStatesMatch_of_ne (a b : Option Bool) (h : a ≠ b) :
    resolvedStatesMatch a b = false := by
  cases a <;> cases b <;> simp_all [resolvedStatesMatch]

theorem string_beq_comm (a b : String) : (a == b) = (b == a) := by
  rcases eq_or_ne a b with h | h
  · subst h; rfl
  · rw [beq_eq_false_iff_ne.mpr h, beq_eq_false_iff_ne.mpr h.symm]

/-- Claim C3: for every pair of comments a and b, Overlaps a b returns the
same boolean as Overlaps b a. -/
theorem Overlaps_symm (a b : Comment) : Overlaps a b = Overlaps b a := by
  unfold Overlaps
  rw [string_beq_comm a.timestamp, resolvedStatesMatch_comm, string_beq_comm a.description]
  congr 1
  cases isQuotedCopy a.description b.description <;>
    cases isQuotedCopy b.description a.description <;> simp

/-- Claim C4: comments whose resolved flags differ (one absent and one set,
or both set with unequal values) never overlap, whatever their timestamps
and descriptions. -/
theorem Overlaps_resolved_mismatch (a b : Comment) (h : a.resolved ≠ b.resolved) :
    Overlaps a b = false := by
  unfold Overlaps
  rw [resolvedStatesMatch_of_ne _ _ h]
  simp

/-- Witness for claim C4 at concrete comments with equal timestamps and
equal descriptions but an absent versus a set resolved flag. -/
theorem Overlaps_resolved_mismatch_witness :
    (⟨"012345", "a", none, "d", none⟩ : Comment).resolved ≠
      (⟨"012345", "b", none, "d", some true⟩ : Comment).resolved ∧
    Overlaps ⟨"012345", "a", none, "d", none⟩ ⟨"012345", "b", none, "d", some true⟩ = false :=
  ⟨by decide, Overlaps_resolved_mismatch _ _ (by decide)⟩

mutual
theorem filterThread_eq_filter (ex : List Comment) :
    (t : CommentThread) →
      filterThread ex t = (flattenThread t).filter (fun c => !overlapsAny c ex)
  | .mk h c children => by
    rw [filterThread, flattenThread, List.filter_cons, filterThreadList_eq_filter ex children]
    cases hov : overlapsAny c ex <;> simp
theorem filterThreadList_eq_filter (ex : List Comment) :
    (ts : List CommentThread) →
      filterThreadList ex ts = (flattenThreadList ts).filter (fun c => !overlapsAny c ex)
  | [] => rfl
  | t :: ts => by
    rw [filterThreadList, flattenThreadList, List.filter_append,
      filterThread_eq_filter ex t, filterThreadList_eq_filter ex ts]
end

theorem flattenThreadList_leaves (l : List Comment) :
    flattenThreadList (l.map (fun c => CommentThread.mk "" c [])) = l := by
  induction l with
  | nil => rfl
  | cons c cs ih => rw [List.map_cons, flattenThreadList, flattenThread, flattenThreadList, ih]; rfl

/-- Claim C5 counterexample: filtering the output of FilterOverlapping
against the union of the existing set and that output does not return the
output unchanged (a kept comment overlaps its own copy in the union). -/
theorem FilterOverlapping_union_counterexample :
    FilterOverlapping
        ((FilterOverlapping [CommentThread.mk "0" ⟨"012345", "a", none, "d", none⟩ []] []).map
          (fun c => CommentThread.mk "" c []))
        ([] ++ FilterOverlapping [CommentThread.mk "0" ⟨"012345", "a", none, "d", none⟩ []] []) ≠
      FilterOverlapping [CommentThread.mk "0" ⟨"012345", "a", none, "d", none⟩ []] [] := by
  decide

/-- Claim C5 (amended): FilterOverlapping returns exactly the comments of
the threads that overlap no comment in the existing set, in stable preorder
traversal order (parent before children, children in original order), and
filtering its own output against the same existing set returns the output
unchanged. The original claim filtered the output against the union of the
existing set and the output, which removes every kept comment because each
comment overlaps itself. -/
theorem FilterOverlapping_spec (threads : List CommentThread) (existing : List Comment) :
    FilterOverlapping threads existing
        = (flattenThreadList threads).filter (fun c => !overlapsAny c existing) ∧
    FilterOverlapping
        ((FilterOverlapping threads existing).map (fun c => CommentThread.mk "" c []))
        existing
      = FilterOverlapping threads existing := by
  refine ⟨filterThreadList_eq_filter existing threads, ?_⟩
  unfold FilterOverlapping
  rw [filterThreadList_eq_filter, flattenThreadList_leaves,
    filterThreadList_eq_filter, List.filter_filter]
  simp

theorem string_mk_length (l : List Char) : String.length ⟨l⟩ = l.length := rfl

theorem goConcat_data (a b : String) : (goConcat a b).data = a.data ++ b.data := rfl

theorem goConcat_length (a b : String) : (goConcat a b).length = a.length + b.length := by
  show (a.data ++ b.data).length = a.data.length + b.data.length
  exact List.length_append a.data b.data

theorem goTake_length (s : String) (n : Nat) (h : n ≤ s.length) : (goTake s n).length = n := by
  show (s.data.take n).length = n
  rw [List.length_take]
  exact Nat.min_eq_left h

theorem firstLine_length_le (s : String) : (firstLine s).length ≤ s.length :=
  (List.takeWhile_prefix _).length_le

theorem createRevisionFields_title_of_gt (queryUser : String → Option String) (req : Request)
    (h : (firstLine req.description).length > differentialTitleLengthLimit) :
    (createRevisionFields queryUser req).title =
      goConcat (goTake (firstLine req.description) (differentialTitleLengthLimit - 4)) "..." := by
  simp only [createRevisionFields]
  rw [if_pos h]

theorem createRevisionFields_title_of_le (queryUser : String → Option String) (req : Request)
    (h : ¬ (firstLine req.description).length > differentialTitleLengthLimit) :
    (createRevisionFields queryUser req).title = firstLine req.description := by
  simp only [createRevisionFields]
  rw [if_neg h]

theorem createRevisionFields_summary (queryUser : String → Option String) (req : Request) :
    (createRevisionFields queryUser req).summary =
      if (createRevisionFields queryUser req).title ≠ req.description then req.description
      else "" := by
  simp only [createRevisionFields]

set_option maxRecDepth 4000 in
/-- Claim C6 counterexample: for a description whose single first line has
three hundred characters, the computed title does not have 256 characters
(it has 255: the 252-character slice plus the 3-character ellipsis). -/
theorem createDifferentialRevision_title_counterexample :
    (firstLine longRequest.description).length > 256 ∧
    (createRevisionFields (fun _ => none) longRequest).title.length ≠ 256 := by
  constructor
  · decide
  · decide

/-- Claim C6 (amended): for every review request whose first description
line exceeds the 256-character limit, the title has exactly 255 characters
(the source slices to limit minus 4 and appends the 3-character ellipsis),
ends in the ellipsis, and the summary is the full description, which is
non-empty. The original claim said exactly 256 characters. -/
theorem createDifferentialRevision_truncates (queryUser : String → Option String) (req : Request)
    (h : (firstLine req.description).length > differentialTitleLengthLimit) :
    (createRevisionFields queryUser req).title.length = 255 ∧
    List.IsSuffix "...".data (createRevisionFields queryUser req).title.data ∧
    (createRevisionFields queryUser req).summary = req.description ∧
    (createRevisionFields queryUser req).summary ≠ "" := by
  have hdesc : 256 < req.description.length :=
    lt_of_lt_of_le h (firstLine_length_le req.description)
  have htitle := createRevisionFields_title_of_gt queryUser req h
  have hlen : (createRevisionFields queryUser req).title.length = 255 := by
    rw [htitle, goConcat_length, goTake_length]
    · rfl
    · exact le_of_lt (lt_of_le_of_lt (by norm_num [differentialTitleLengthLimit]) h)
  have hne : (createRevisionFields queryUser req).title ≠ req.description := by
    intro he
    rw [he] at hlen
    omega
  have hsummary : (createRevisionFields queryUser req).summary = req.description := by
    rw [createRevisionFields_summary, if_pos hne]
  refine ⟨hlen, ?_, hsummary, ?_⟩
  · rw [htitle, goConcat_data]
    exact ⟨_, rfl⟩
  · rw [hsummary]
    intro he
    rw [he] at hdesc
    simp [String.length] at hdesc

set_option maxRecDepth 4000 in
/-- Witness for the amended claim C6 at the concrete three-hundred-character
description. -/
theorem createDifferentialRevision_truncates_witness :
    (firstLine longRequest.description).length > differentialTitleLengthLimit ∧
    ((createRevisionFields (fun _ => none) longRequest).title.length = 255 ∧
     List.IsSuffix "...".data (createRevisionFields (fun _ => none) longRequest).title.data ∧
     (createRevisionFields (fun _ => none) longRequest).summary = longRequest.description ∧
     (createRevisionFields (fun _ => none) longRequest).summary ≠ "") :=
  ⟨by decide, createDifferentialRevision_truncates (fun _ => none) longRequest (by decide)⟩

/-- Claim C7 counterexample: a two-line description whose first line is
well under the limit still gets a summary (the full description), because
the title differs from the multi-line description even without truncation. -/
theorem createDifferentialRevision_summary_counterexample :
    (firstLine twoLineRequest.description).length ≤ 256 ∧
    (createRevisionFields (fun _ => none) twoLineRequest).summary ≠ "" := by
  constructor
  · decide
  · decide

/-- Claim C7 (amended): for every review request whose first description
line is within the 256-character limit, the title is the first line
unmodified, and the summary is empty exactly when the description equals
its first line; for a multi-line description the summary is the full
description. The original claim said the summary is populated only on
truncation, but the source populates it whenever the title differs from
the description, which includes every multi-line description. -/
theorem createDifferentialRevision_no_truncation (queryUser : String → Option String)
    (req : Request)
    (h : (firstLine req.description).length ≤ differentialTitleLengthLimit) :
    (createRevisionFields queryUser req).title = firstLine req.description ∧
    ((createRevisionFields queryUser req).summary = "" ↔
      req.description = firstLine req.description) ∧
    (req.description ≠ firstLine req.description →
      (createRevisionFields queryUser req).summary = req.description) := by
  have htitle := createRevisionFields_title_of_le queryUser req (not_lt.mpr h)
  have hsummary := createRevisionFields_summary queryUser req
  rw [htitle] at hsummary
  refine ⟨htitle, ?_, ?_⟩
  · constructor
    · intro hempty
      by_contra hne
      rw [if_pos (fun he => hne he.symm)] at hsummary
      rw [hsummary] at hempty
      exact hne (by rw [hempty]; rfl)
    · intro heq
      rw [if_neg (fun hne => hne heq.symm)] at hsummary
      exact hsummary
  · intro hne
    rw [if_pos (fun he => hne he.symm)] at hsummary
    exact hsummary

/-- Witness for the amended claim C7 at the concrete two-line request. -/
theorem createDifferentialRevision_no_truncation_witness :
    (firstLine twoLineRequest.description).length ≤ differentialTitleLengthLimit ∧
    ((createRevisionFields (fun _ => none) twoLineRequest).title =
        firstLine twoLineRequest.description ∧
     ((createRevisionFields (fun _ => none) twoLineRequest).summary = "" ↔
        twoLineRequest.description = firstLine twoLineRequest.description) ∧
     (twoLineRequest.description ≠ firstLine twoLineRequest.description →
        (createRevisionFields (fun _ => none) twoLineRequest).summary =
          twoLineRequest.description)) :=
  ⟨by decide, createDifferentialRevision_no_truncation (fun _ => none) twoLineRequest (by decide)⟩

/-- Claim C9: the CI status translation maps success to pass, failure to
fail and everything else (including the empty string) to skip, and a CI
report with an empty URL generates no unit diff property and posts
nothing. -/
theorem translateCI_spec :
    translateReportStatusToDifferentialUnitResult "success" = "pass" ∧
    translateReportStatusToDifferentialUnitResult "failure" = "fail" ∧
    (∀ status : String, status ≠ "success" → status ≠ "failure" →
      translateReportStatusToDifferentialUnitResult status = "skip") ∧
    (∀ (diffID : Nat) (report : Report), report.url = "" →
      generateUnitDiffProperty report = none ∧ reportUnitResults diffID report = []) := by
  refine ⟨rfl, rfl, ?_, ?_⟩
  · intro status h1 h2
    simp [translateReportStatusToDifferentialUnitResult, h1, h2]
  · intro diffID report h
    constructor
    · simp [generateUnitDiffProperty, h]
    · simp [reportUnitResults, generateUnitDiffProperty, h]

/-- Witness for claim C9 at the empty status string and a URL-less
concrete report. -/
theorem translateCI_spec_witness :
    (("" : String) ≠ "success") ∧ (("" : String) ≠ "failure") ∧
    translateReportStatusToDifferentialUnitResult "" = "skip" ∧
    ({ agent := "ci", url := "", status := "success" } : Report).url = "" ∧
    generateUnitDiffProperty { agent := "ci", url := "", status := "success" } = none ∧
    reportUnitResults 7 { agent := "ci", url := "", status := "success" } = [] :=
  ⟨by decide, by decide,
   translateCI_spec.2.2.1 "" (by decide) (by decide),
   rfl,
   (translateCI_spec.2.2.2 7 { agent := "ci", url := "", status := "success" } rfl).1,
   (translateCI_spec.2.2.2 7 { agent := "ci", url := "", status := "success" } rfl).2⟩

mutual
theorem buildCommentRequestsForThread_fields (dr : DifferentialReview) (ex : List Comment) :
    (t : CommentThread) → (d p : String) → (ln : Nat) →
      ∀ rq ∈ buildCommentRequestsForThread dr ex t d p ln, rq.diffID = d ∧ rq.filePath = p
  | .mk h c children, d, p, ln => by
    intro rq hrq
    rw [buildCommentRequestsForThread] at hrq
    rcases List.mem_append.mp hrq with h1 | h2
    · cases hov : overlapsAny c ex with
      | true => rw [hov] at h1; simp at h1
      | false =>
        rw [hov] at h1
        simp only [Bool.false_eq_true, if_false, List.mem_singleton] at h1
        subst h1
        exact ⟨rfl, rfl⟩
    · exact buildCommentRequestsForThreadChildren_fields dr ex children d p ln rq h2
theorem buildCommentRequestsForThreadChildren_fields (dr : DifferentialReview)
    (ex : List Comment) :
    (ts : List CommentThread) → (d p : String) → (ln : Nat) →
      ∀ rq ∈ buildCommentRequestsForThreadChildren dr ex ts d p ln, rq.diffID = d ∧ rq.filePath = p
  | [], _, _, _ => by intro rq hrq; rw [buildCommentRequestsForThreadChildren] at hrq; simp at hrq
  | t :: ts, d, p, ln => by
    intro rq hrq
    rw [buildCommentRequestsForThreadChildren] at hrq
    rcases List.mem_append.mp hrq with h1 | h2
    · exact buildCommentRequestsForThread_fields dr ex t d p ln rq h1
    · exact buildCommentRequestsForThreadChildren_fields dr ex ts d p ln rq h2
end

theorem buildCommentRequestsForRootThread_fields (dr : DifferentialReview) (ex : List Comment)
    (cmap : String → String) (c : CommentThread) :
    ∀ rq ∈ buildCommentRequestsForRootThread dr ex cmap c,
      ∃ loc, c.comment.location = some loc ∧ loc.path ≠ "" ∧ cmap loc.commit ≠ "" ∧
        rq.filePath = loc.path ∧ rq.diffID = cmap loc.commit := by
  intro rq hrq
  unfold buildCommentRequestsForRootThread at hrq
  cases hloc : c.comment.location with
  | none => rw [hloc] at hrq; simp at hrq
  | some loc =>
    rw [hloc] at hrq
    dsimp only at hrq
    by_cases hp : loc.path ≠ ""
    · rw [if_pos hp] at hrq
      by_cases hd : cmap loc.commit ≠ ""
      · simp only [if_pos hd] at hrq
        have := buildCommentRequestsForThread_fields dr ex c (cmap loc.commit) loc.path
          (match loc.range with | some rg => rg.startLine | none => 1) rq hrq
        exact ⟨loc, rfl, hp, hd, this.2, this.1⟩
      · simp only [if_neg hd] at hrq
        simp at hrq
    · rw [if_neg hp] at hrq
      simp at hrq

theorem buildCommentRequestsForRootThread_skip (dr : DifferentialReview) (ex : List Comment)
    (cmap : String → String) (c : CommentThread)
    (h : c.comment.location = none ∨
      ∃ loc, c.comment.location = some loc ∧ (loc.path = "" ∨ cmap loc.commit = "")) :
    buildCommentRequestsForRootThread dr ex cmap c = [] := by
  unfold buildCommentRequestsForRootThread
  rcases h with hnone | ⟨loc, hloc, hskip⟩
  · rw [hnone]
  · rw [hloc]
    dsimp only
    rcases hskip with hpath | hcommit
    · rw [if_neg (by simp [hpath])]
    · by_cases hp : loc.path ≠ ""
      · rw [if_pos hp]
        simp only [hcommit]
        simp
      · rw [if_neg hp]

theorem buildCommentRequests_fst (dr : DifferentialReview) (ts : List CommentThread)
    (ex : List Comment) (cmap : String → String) :
    (buildCommentRequests dr ts ex cmap).1 =
      ts.foldr (fun c acc => buildCommentRequestsForRootThread dr ex cmap c ++ acc) [] := rfl

theorem buildCommentRequests_inline_mem (dr : DifferentialReview) (ex : List Comment)
    (cmap : String → String) :
    ∀ (ts : List CommentThread) (rq : createInlineRequest),
      rq ∈ (buildCommentRequests dr ts ex cmap).1 →
      ∃ t ∈ ts, rq ∈ buildCommentRequestsForRootThread dr ex cmap t := by
  intro ts
  induction ts with
  | nil => intro rq hrq; rw [buildCommentRequests_fst] at hrq; simp at hrq
  | cons t ts ih =>
    intro rq hrq
    rw [buildCommentRequests_fst] at hrq
    rcases List.mem_append.mp hrq with h1 | h2
    · exact ⟨t, List.mem_cons_self t ts, h1⟩
    · rcases ih rq (by rw [buildCommentRequests_fst]; exact h2) with ⟨t', ht', hrq'⟩
      exact ⟨t', List.mem_cons_of_mem t ht', hrq'⟩

/-- Claim C10: every inline request built by buildCommentRequests comes
from a thread whose root comment is anchored to a non-empty file path on a
commit with a known diff, and carries that path and diff identifier; a
thread whose root comment has no location, an empty path, or a commit
absent from the diff map contributes no request at all; and a single
top-level comment request is issued exactly when at least one inline
request was built. -/
theorem buildCommentRequests_anchoring (differentialReview : DifferentialReview)
    (existingComments : List Comment) (commitToDiffMap : String → String) :
    (∀ (commentThreads : List CommentThread) (request : createInlineRequest),
      request ∈ (buildCommentRequests differentialReview commentThreads existingComments
          commitToDiffMap).1 →
      ∃ t ∈ commentThreads, ∃ loc, t.comment.location = some loc ∧ loc.path ≠ "" ∧
        commitToDiffMap loc.commit ≠ "" ∧ request.filePath = loc.path ∧
        request.diffID = commitToDiffMap loc.commit) ∧
    (∀ (t : CommentThread) (rest : List CommentThread),
      (t.comment.location = none ∨
        ∃ loc, t.comment.location = some loc ∧ (loc.path = "" ∨ commitToDiffMap loc.commit = "")) →
      buildCommentRequests differentialReview (t :: rest) existingComments commitToDiffMap =
        buildCommentRequests differentialReview rest existingComments commitToDiffMap) ∧
    (∀ commentThreads : List CommentThread,
      ((buildCommentRequests differentialReview commentThreads existingComments
          commitToDiffMap).1 = [] →
        (buildCommentRequests differentialReview commentThreads existingComments
          commitToDiffMap).2 = []) ∧
      ((buildCommentRequests differentialReview commentThreads existingComments
          commitToDiffMap).1 ≠ [] →
        (buildCommentRequests differentialReview commentThreads existingComments
          commitToDiffMap).2 =
          [{ revisionID := differentialReview.id, message := "", action := "comment",
             attachInlines := true }])) := by
  refine ⟨?_, ?_, ?_⟩
  · intro commentThreads request hrq
    rcases buildCommentRequests_inline_mem differentialReview existingComments commitToDiffMap
      commentThreads request hrq with ⟨t, ht, hrq'⟩
    rcases buildCommentRequestsForRootThread_fields differentialReview existingComments
      commitToDiffMap t request hrq' with ⟨loc, hloc, hp, hd, hfp, hdid⟩
    exact ⟨t, ht, loc, hloc, hp, hd, hfp, hdid⟩
  · intro t rest h
    have hskip := buildCommentRequestsForRootThread_skip differentialReview existingComments
      commitToDiffMap t h
    unfold buildCommentRequests
    simp only [List.foldr_cons, hskip, List.nil_append]
  · intro commentThreads
    constructor
    · intro hempty
      unfold buildCommentRequests
      rw [buildCommentRequests_fst] at hempty
      simp only [hempty]
      simp
    · intro hne
      unfold buildCommentRequests
      rw [buildCommentRequests_fst] at hne
      have : 0 < (commentThreads.foldr
          (fun c acc => buildCommentRequestsForRootThread differentialReview existingComments
            commitToDiffMap c ++ acc) []).length := List.length_pos.mpr hne
      simp only [gt_iff_lt, this, if_pos]

/-- Witness for claim C10: the skip clause applied at a thread whose root
comment has no location. -/
theorem buildCommentRequests_anchoring_witness :
    (threadNoLocation.comment.location = none ∨
      ∃ loc, threadNoLocation.comment.location = some loc ∧
        (loc.path = "" ∨ sampleCommitToDiffMap loc.commit = "")) ∧
    buildCommentRequests sampleDifferentialReview (threadNoLocation :: [threadAnchored]) []
        sampleCommitToDiffMap =
      buildCommentRequests sampleDifferentialReview [threadAnchored] [] sampleCommitToDiffMap :=
  ⟨Or.inl rfl,
   (buildCommentRequests_anchoring sampleDifferentialReview [] sampleCommitToDiffMap).2.1
     threadNoLocation [threadAnchored] (Or.inl rfl)⟩

theorem reportUnitResults_mirror (diffID : Nat) (unitReport : Report) :
    ∀ m ∈ reportUnitResults diffID unitReport, isMirrorMutation m = true := by
  intro m hm
  unfold reportUnitResults at hm
  cases hgen : generateUnitDiffProperty unitReport with
  | none => rw [hgen] at hm; simp at hm
  | some property =>
    rw [hgen] at hm
    rcases List.mem_singleton.mp hm with rfl
    rfl

theorem reportLintResults_mirror (diffID : Nat) (lintResults : List AnalyzeResponse) :
    ∀ m ∈ reportLintResults diffID lintResults, isMirrorMutation m = true := by
  intro m hm
  unfold reportLintResults at hm
  by_cases hgen : (generateLintDiffProperty lintResults).isEmpty
  · rw [if_pos hgen] at hm; simp at hm
  · rw [if_neg hgen] at hm
    rcases List.mem_singleton.mp hm with rfl
    rfl

theorem mirrorStatusesForEachCommit_mirror (cfg : Config)
    (commitToDiffIDMap : List (String × Nat)) :
    ∀ m ∈ mirrorStatusesForEachCommit cfg commitToDiffIDMap, isMirrorMutation m = true := by
  induction commitToDiffIDMap with
  | nil => intro m hm; simp [mirrorStatusesForEachCommit] at hm
  | cons entry rest ih =>
    intro m hm
    unfold mirrorStatusesForEachCommit at hm
    rw [List.foldr_cons] at hm
    rcases List.mem_append.mp hm with h12 | hrest
    · rcases List.mem_append.mp h12 with h1 | h2
      · cases hci : cfg.ciReport entry.1 with
        | none => rw [hci] at h1; simp at h1
        | some latestCIReport =>
          rw [hci] at h1
          dsimp only at h1
          exact reportUnitResults_mirror entry.2 latestCIReport m h1
      · cases hlint : cfg.lintReport entry.1 with
        | none => rw [hlint] at h2; simp at h2
        | some lintResults =>
          rw [hlint] at h2
          dsimp only at h2
          exact reportLintResults_mirror entry.2 lintResults m h2
    · exact ih m hrest

theorem mirrorCommentsIntoReview_mirror (cfg : Config) (st : RemoteState)
    (differentialReview : DifferentialReview) (r : Review) :
    ∀ m ∈ mirrorCommentsIntoReview cfg st differentialReview r, isMirrorMutation m = true := by
  intro m hm
  unfold mirrorCommentsIntoReview at hm
  rcases List.mem_append.mp hm with h1 | h2
  · rcases List.mem_append.mp h1 with h3 | h4
    · exact mirrorStatusesForEachCommit_mirror cfg _ m h3
    · rcases List.mem_map.mp h4 with ⟨rq, _, hrq⟩
      rw [← hrq]
      rfl
  · rcases List.mem_map.mp h2 with ⟨rq, _, hrq⟩
    rw [← hrq]
    rfl

theorem mirror_not_lifecycle (m : Mutation) (h : isMirrorMutation m = true) :
    isLifecycleMutation m = false := by
  cases m <;> first | rfl | exact absurd h (by simp [isMirrorMutation])

/-- Claim C8: when the hash set of the remote revision already contains the
current head commit, updateReviewDiffs issues only comment and report
mirroring mutations (no diff creation and no revision mutation) and leaves
the remote state unchanged. -/
theorem updateReviewDiffs_head_unchanged (cfg : Config) (st : RemoteState)
    (differentialReview : DifferentialReview) (headCommit : String) (req : Request)
    (r : Review) (h : hashesContain differentialReview.hashes headCommit = true) :
    ((updateReviewDiffs cfg st differentialReview headCommit req r).1.all
      (fun m => isMirrorMutation m) = true) ∧
    (updateReviewDiffs cfg st differentialReview headCommit req r).2 = st := by
  have hstep : updateReviewDiffs cfg st differentialReview headCommit req r =
      if differentialReview.isClosed then ([], st)
      else (mirrorCommentsIntoReview cfg st differentialReview r, st) := by
    unfold updateReviewDiffs
    cases hclosed : differentialReview.isClosed
    · simp only [Bool.false_eq_true, if_false]
      rw [if_pos h]
    · simp
  rw [hstep]
  cases hclosed : differentialReview.isClosed
  · simp only [Bool.false_eq_true, if_false]
    constructor
    · rw [List.all_eq_true]
      intro m hm
      exact mirrorCommentsIntoReview_mirror cfg st differentialReview r m hm
    · trivial
  · simp

/-- Witness for claim C8 at the concrete remote revision openReviewH1,
whose hash set contains the head commit h1. -/
theorem updateReviewDiffs_head_unchanged_witness :
    hashesContain openReviewH1.hashes "h1" = true ∧
    (((updateReviewDiffs ciConfig sampleRemoteState openReviewH1 "h1" sampleRequest
        sampleReview).1.all (fun m => isMirrorMutation m) = true) ∧
     (updateReviewDiffs ciConfig sampleRemoteState openReviewH1 "h1" sampleRequest
        sampleReview).2 = sampleRemoteState) :=
  ⟨by decide,
   updateReviewDiffs_head_unchanged ciConfig sampleRemoteState openReviewH1 "h1" sampleRequest
     sampleReview (by decide)⟩

/-- Claim C2: for a submitted review whose revision is not yet in the
closed-revisions cache, EnsureRequestExists issues exactly one close call
per non-closed remote revision matching the revision identifier, records
the revision in the cache, and any subsequent call for the same revision
within the process (whatever the remote state) issues no mutation at all,
short-circuited by the cache. -/
theorem EnsureRequestExists_submitted_close_once (cfg : Config) (st : RemoteState)
    (closedRevisions : List String) (r : Review)
    (hsub : r.submitted = true) (hcache : closedRevisions.contains r.revision = false) :
    (EnsureRequestExists cfg st closedRevisions r).1 =
      ((listDifferentialReviews st r.revision).filter
        (fun differentialReview => !differentialReview.isClosed)).map
        (fun differentialReview => Mutation.closeRevision differentialReview.id) ∧
    (EnsureRequestExists cfg st closedRevisions r).2.2.contains r.revision = true ∧
    ∀ st' : RemoteState,
      (EnsureRequestExists cfg st' (EnsureRequestExists cfg st closedRevisions r).2.2 r).1 = [] := by
  have hcall : EnsureRequestExists cfg st closedRevisions r =
      (((listDifferentialReviews st r.revision).filter
          (fun differentialReview => !differentialReview.isClosed)).map
          (fun differentialReview => Mutation.closeRevision differentialReview.id),
       closeReviews st ((listDifferentialReviews st r.revision).filter
          (fun differentialReview => !differentialReview.isClosed)),
       r.revision :: closedRevisions) := by
    unfold EnsureRequestExists
    simp only [hcache, Bool.false_eq_true, if_false, hsub, if_true]
  rw [hcall]
  refine ⟨rfl, ?_, ?_⟩
  · simp
  · intro st'
    unfold EnsureRequestExists
    simp

/-- Witness for claim C2: the submitted concrete review closes the one
open matching revision exactly once (close of revision 11), caches r1, and
a second call issues nothing. -/
theorem EnsureRequestExists_submitted_close_once_witness :
    submittedReview.submitted = true ∧
    (([] : List String).contains submittedReview.revision = false) ∧
    (EnsureRequestExists sampleConfig sampleRemoteState [] submittedReview).1 =
      ((listDifferentialReviews sampleRemoteState submittedReview.revision).filter
        (fun differentialReview => !differentialReview.isClosed)).map
        (fun differentialReview => Mutation.closeRevision differentialReview.id) ∧
    (EnsureRequestExists sampleConfig sampleRemoteState [] submittedReview).1 =
      [Mutation.closeRevision "11"] ∧
    (EnsureRequestExists sampleConfig sampleRemoteState [] submittedReview).2.2.contains
      submittedReview.revision = true ∧
    (EnsureRequestExists sampleConfig sampleRemoteState
        (EnsureRequestExists sampleConfig sampleRemoteState [] submittedReview).2.2
        submittedReview).1 = [] :=
  ⟨rfl, by decide,
   (EnsureRequestExists_submitted_close_once sampleConfig sampleRemoteState [] submittedReview
     rfl (by decide)).1,
   by decide,
   (EnsureRequestExists_submitted_close_once sampleConfig sampleRemoteState [] submittedReview
     rfl (by decide)).2.1,
   (EnsureRequestExists_submitted_close_once sampleConfig sampleRemoteState [] submittedReview
     rfl (by decide)).2.2 sampleRemoteState⟩

theorem ensure_eq_of_cacheHit (cfg : Config) (st : RemoteState) (c : List String) (r : Review)
    (h : c.contains r.revision = true) :
    EnsureRequestExists cfg st c r = ([], st, c) := by
  unfold EnsureRequestExists
  rw [if_pos h]

theorem ensure_eq_of_submitted (cfg : Config) (st : RemoteState) (c : List String) (r : Review)
    (hc : c.contains r.revision = false) (hs : r.submitted = true) :
    EnsureRequestExists cfg st c r =
      (((listDifferentialReviews st r.revision).filter
          (fun differentialReview => !differentialReview.isClosed)).map
          (fun differentialReview => Mutation.closeRevision differentialReview.id),
       closeReviews st ((listDifferentialReviews st r.revision).filter
          (fun differentialReview => !differentialReview.isClosed)),
       r.revision :: c) := by
  unfold EnsureRequestExists
  simp only [hc, Bool.false_eq_true, if_false, hs, if_true]

theorem ensure_eq_of_base_none (cfg : Config) (st : RemoteState) (c : List String) (r : Review)
    (hc : c.contains r.revision = false) (hs : r.submitted = false)
    (hb : cfg.baseCommit = none) :
    EnsureRequestExists cfg st c r = ([], st, c) := by
  unfold EnsureRequestExists
  simp only [hc, Bool.false_eq_true, if_false, hs, hb]

theorem ensure_eq_of_head_none (cfg : Config) (st : RemoteState) (c : List String) (r : Review)
    (base : String) (hc : c.contains r.revision = false) (hs : r.submitted = false)
    (hb : cfg.baseCommit = some base) (hh : cfg.headCommit = none) :
    EnsureRequestExists cfg st c r = ([], st, c) := by
  unfold EnsureRequestExists
  simp only [hc, Bool.false_eq_true, if_false, hs, hb, hh]

theorem ensure_eq_of_existing (cfg : Config) (st : RemoteState) (c : List String) (r : Review)
    (base head : String) (hc : c.contains r.revision = false) (hs : r.submitted = false)
    (hb : cfg.baseCommit = some base) (hh : cfg.headCommit = some head)
    (hne : (listDifferentialReviews st r.revision).isEmpty = false) :
    EnsureRequestExists cfg st c r =
      ((updateAllReviewDiffs cfg r.request r head st (listDifferentialReviews st r.revision)).1,
       (updateAllReviewDiffs cfg r.request r head st (listDifferentialReviews st r.revision)).2,
       c) := by
  unfold EnsureRequestExists
  simp only [hc, Bool.false_eq_true, if_false, hs, hb, hh, hne]

theorem ensure_eq_of_create_refused (cfg : Config) (st : RemoteState) (c : List String)
    (r : Review) (base head : String) (hc : c.contains r.revision = false)
    (hs : r.submitted = false) (hb : cfg.baseCommit = some base)
    (hh : cfg.headCommit = some head)
    (hempty : (listDifferentialReviews st r.revision).isEmpty = true)
    (href : cfg.diffRefused base r.revision = true) :
    EnsureRequestExists cfg st c r = ([Mutation.createDiff base r.revision], st, c) := by
  unfold EnsureRequestExists
  simp only [hc, Bool.false_eq_true, if_false, hs, hb, hh, hempty, if_true]
  unfold createDifferentialDiff
  rw [if_pos href]

theorem ensure_eq_of_create_success (cfg : Config) (st : RemoteState) (c : List String)
    (r : Review) (base head : String) (hc : c.contains r.revision = false)
    (hs : r.submitted = false) (hb : cfg.baseCommit = some base)
    (hh : cfg.headCommit = some head)
    (hempty : (listDifferentialReviews st r.revision).isEmpty = true)
    (href : cfg.diffRefused base r.revision = false) :
    EnsureRequestExists cfg st c r =
      ([Mutation.createDiff base r.revision] ++
       [Mutation.createRevision st.nextDiffID (createRevisionFields cfg.queryUser r.request)] ++
       (updateAllReviewDiffs cfg r.request r head (createdState cfg st r)
         (listDifferentialReviews (createdState cfg st r) r.revision)).1,
       (updateAllReviewDiffs cfg r.request r head (createdState cfg st r)
         (listDifferentialReviews (createdState cfg st r) r.revision)).2,
       c) := by
  unfold EnsureRequestExists
  simp only [hc, Bool.false_eq_true, if_false, hs, hb, hh, hempty, if_true]
  unfold createDifferentialDiff
  rw [if_neg (by rw [href]; exact Bool.false_ne_true)]
  rfl

theorem revisionGrowth_refl (headCommit : String) (v : DifferentialReview) :
    revisionGrowth headCommit v v :=
  ⟨rfl, rfl, fun _ h => h, Or.inl rfl⟩

theorem revisionGrowth_trans (headCommit : String) (u v w : DifferentialReview)
    (h1 : revisionGrowth headCommit u v) (h2 : revisionGrowth headCommit v w) :
    revisionGrowth headCommit u w := by
  refine ⟨h2.1.trans h1.1, h2.2.1.trans h1.2.1,
    fun pair hp => h2.2.2.1 pair (h1.2.2.1 pair hp), ?_⟩
  rcases h2.2.2.2 with hw | hw
  · rw [hw]
    exact h1.2.2.2
  · exact Or.inr hw

theorem attachFun_growth (revisionID headCommit diffIDString : String)
    (v : DifferentialReview) :
    revisionGrowth headCommit v (attachFun revisionID headCommit diffIDString v) := by
  unfold attachFun
  by_cases h : v.id == revisionID
  · rw [if_pos h]
    exact ⟨rfl, rfl, fun pair hp => List.mem_append_left _ hp,
      Or.inr (List.mem_append_right _ (List.mem_singleton_self _))⟩
  · rw [if_neg h]
    exact revisionGrowth_refl headCommit v

theorem hashesContain_of_growth (headCommit rev : String) (v v' : DifferentialReview)
    (hgrow : revisionGrowth headCommit v v') (h : hashesContain v.hashes rev = true) :
    hashesContain v'.hashes rev = true := by
  rcases List.any_eq_true.mp h with ⟨pair, hmem, hbeq⟩
  exact List.any_eq_true.mpr ⟨pair, hgrow.2.2.1 pair hmem, hbeq⟩

theorem updateReviewDiffs_cases (cfg : Config) (st : RemoteState)
    (differentialReview : DifferentialReview) (headCommit : String) (req : Request)
    (r : Review) :
    (stableFor cfg req headCommit differentialReview ∧
      (updateReviewDiffs cfg st differentialReview headCommit req r).2 = st) ∨
    ((updateReviewDiffs cfg st differentialReview headCommit req r).2.revisions =
      st.revisions.map
        (attachFun differentialReview.id headCommit (toString st.nextDiffID))) := by
  unfold updateReviewDiffs
  cases hclosed : differentialReview.isClosed
  · simp only [Bool.false_eq_true, if_false]
    by_cases hm : hashesContain differentialReview.hashes headCommit = true
    · rw [if_pos hm]
      exact Or.inl ⟨Or.inr (Or.inl hm), rfl⟩
    · rw [if_neg hm]
      unfold createDifferentialDiff
      by_cases href : cfg.diffRefused (cfg.mergeBase req.targetRef headCommit) headCommit = true
      · rw [if_pos href]
        exact Or.inl ⟨Or.inr (Or.inr href), rfl⟩
      · rw [if_neg href]
        exact Or.inr rfl
  · simp only [if_true]
    exact Or.inl ⟨Or.inl hclosed, trivial⟩

theorem updateAllReviewDiffs_cons (cfg : Config) (req : Request) (r : Review)
    (headCommit : String) (st : RemoteState) (existing : DifferentialReview)
    (rest : List DifferentialReview) :
    updateAllReviewDiffs cfg req r headCommit st (existing :: rest) =
      ((updateReviewDiffs cfg st existing headCommit req r).1 ++
        (updateAllReviewDiffs cfg req r headCommit
          (updateReviewDiffs cfg st existing headCommit req r).2 rest).1,
       (updateAllReviewDiffs cfg req r headCommit
          (updateReviewDiffs cfg st existing headCommit req r).2 rest).2) := rfl

theorem updateAllReviewDiffs_growth (cfg : Config) (req : Request) (r : Review)
    (headCommit : String) :
    ∀ (L : List DifferentialReview) (st : RemoteState),
      ∃ g : DifferentialReview → DifferentialReview,
        (∀ v, revisionGrowth headCommit v (g v)) ∧
        (updateAllReviewDiffs cfg req r headCommit st L).2.revisions = st.revisions.map g := by
  intro L
  induction L with
  | nil =>
    intro st
    exact ⟨id, fun v => revisionGrowth_refl headCommit v, (List.map_id _).symm⟩
  | cons existing rest ih =>
    intro st
    rw [updateAllReviewDiffs_cons]
    rcases ih (updateReviewDiffs cfg st existing headCommit req r).2 with ⟨g, hg, hrev⟩
    rcases updateReviewDiffs_cases cfg st existing headCommit req r with ⟨_, hst⟩ | hmap
    · exact ⟨g, hg, by rw [hrev, hst]⟩
    · refine ⟨fun v => g (attachFun existing.id headCommit (toString st.nextDiffID) v),
        fun v => revisionGrowth_trans headCommit _ _ _
          (attachFun_growth existing.id headCommit (toString st.nextDiffID) v) (hg _), ?_⟩
      rw [hrev, hmap, List.map_map]
      rfl

theorem updateAllReviewDiffs_stabilizes (cfg : Config) (req : Request) (r : Review)
    (headCommit rev : String) :
    ∀ (L : List DifferentialReview) (st : RemoteState),
      (∀ v ∈ st.revisions, hashesContain v.hashes rev = true →
        v ∈ L ∨ stableFor cfg req headCommit v) →
      ∀ v' ∈ (updateAllReviewDiffs cfg req r headCommit st L).2.revisions,
        hashesContain v'.hashes rev = true → stableFor cfg req headCommit v' := by
  intro L
  induction L with
  | nil =>
    intro st hst v' hv' hmatch
    rcases hst v' hv' hmatch with hmem | hstable
    · simp at hmem
    · exact hstable
  | cons existing rest ih =>
    intro st hst v' hv' hmatch
    rw [updateAllReviewDiffs_cons] at hv'
    refine ih (updateReviewDiffs cfg st existing headCommit req r).2 ?_ v' hv' hmatch
    intro v1 hv1 hmatch1
    rcases updateReviewDiffs_cases cfg st existing headCommit req r with ⟨hstable, hstval⟩ | hmap
    · rw [hstval] at hv1
      rcases hst v1 hv1 hmatch1 with hmem | hs
      · rcases List.mem_cons.mp hmem with heq | hrest
        · exact Or.inr (heq ▸ hstable)
        · exact Or.inl hrest
      · exact Or.inr hs
    · rw [hmap] at hv1
      rcases List.mem_map.mp hv1 with ⟨v0, hv0, hval⟩
      by_cases hbeq : v0.id == existing.id
      · refine Or.inr (Or.inr (Or.inl ?_))
        rw [← hval]
        unfold attachFun
        rw [if_pos hbeq]
        simp [hashesContain]
      · have hval' : v1 = v0 := by
          rw [← hval]
          unfold attachFun
          rw [if_neg hbeq]
        subst hval'
        rcases hst v1 hv0 hmatch1 with hmem | hs
        · rcases List.mem_cons.mp hmem with heq | hrest
          · exfalso
            apply hbeq
            rw [heq]
            exact beq_self_eq_true _
          · exact Or.inl hrest
        · exact Or.inr hs

theorem updateReviewDiffs_stable_trace (cfg : Config) (st : RemoteState)
    (differentialReview : DifferentialReview) (headCommit : String) (req : Request)
    (r : Review) (h : stableFor cfg req headCommit differentialReview) :
    ∀ m ∈ (updateReviewDiffs cfg st differentialReview headCommit req r).1,
      isLifecycleMutation m = false := by
  intro m hm
  unfold updateReviewDiffs at hm
  cases hclosed : differentialReview.isClosed
  · rw [hclosed] at hm
    simp only [Bool.false_eq_true, if_false] at hm
    by_cases hmatch : hashesContain differentialReview.hashes headCommit = true
    · rw [if_pos hmatch] at hm
      exact mirror_not_lifecycle m (mirrorCommentsIntoReview_mirror cfg st differentialReview r m hm)
    · rw [if_neg hmatch] at hm
      have href : cfg.diffRefused (cfg.mergeBase req.targetRef headCommit) headCommit = true := by
        rcases h with hc | hc | hc
        · rw [hclosed] at hc; cases hc
        · exact absurd hc hmatch
        · exact hc
      unfold createDifferentialDiff at hm
      rw [if_pos href] at hm
      rcases List.mem_singleton.mp hm with rfl
      rfl
  · rw [hclosed] at hm
    simp at hm

theorem updateAllReviewDiffs_stable_trace (cfg : Config) (req : Request) (r : Review)
    (headCommit : String) :
    ∀ (L : List DifferentialReview) (st : RemoteState),
      (∀ differentialReview ∈ L, stableFor cfg req headCommit differentialReview) →
      ∀ m ∈ (updateAllReviewDiffs cfg req r headCommit st L).1,
        isLifecycleMutation m = false := by
  intro L
  induction L with
  | nil => intro st _ m hm; simp [updateAllReviewDiffs] at hm
  | cons existing rest ih =>
    intro st hstable m hm
    rw [updateAllReviewDiffs_cons] at hm
    rcases List.mem_append.mp hm with h1 | h2
    · exact updateReviewDiffs_stable_trace cfg st existing headCommit req r
        (hstable existing (List.mem_cons_self existing rest)) m h1
    · exact ih (updateReviewDiffs cfg st existing headCommit req r).2
        (fun d hd => hstable d (List.mem_cons_of_mem existing hd)) m h2

theorem listDifferentialReviews_mem (st : RemoteState) (rev : String)
    (v : DifferentialReview) :
    v ∈ listDifferentialReviews st rev ↔ v ∈ st.revisions ∧ hashesContain v.hashes rev = true := by
  unfold listDifferentialReviews
  exact List.mem_filter

theorem second_call_no_lifecycle_of_stable (cfg : Config) (st1 : RemoteState)
    (c : List String) (r : Review) (base head : String)
    (hc : c.contains r.revision = false) (hs : r.submitted = false)
    (hb : cfg.baseCommit = some base) (hh : cfg.headCommit = some head)
    (hstable : ∀ dr ∈ listDifferentialReviews st1 r.revision, stableFor cfg r.request head dr)
    (hne : (listDifferentialReviews st1 r.revision).isEmpty = false) :
    ∀ m ∈ (EnsureRequestExists cfg st1 c r).1, isLifecycleMutation m = false := by
  rw [ensure_eq_of_existing cfg st1 c r base head hc hs hb hh hne]
  exact updateAllReviewDiffs_stable_trace cfg r.request r head
    (listDifferentialReviews st1 r.revision) st1 hstable

theorem isEmpty_false_of_mem {α : Type} {l : List α} {x : α} (h : x ∈ l) :
    l.isEmpty = false := by
  cases l with
  | nil => cases h
  | cons a as => rfl

theorem createdState_has_revision (cfg : Config) (st : RemoteState) (r : Review) :
    ∃ v ∈ (createdState cfg st r).revisions, hashesContain v.hashes r.revision = true := by
  simp only [createdState, addDiff]
  refine ⟨_, List.mem_append_right _ (List.mem_singleton_self _), ?_⟩
  simp [hashesContain]

/-- Claim C1 (amended): calling EnsureRequestExists twice in a row with no
change in the local review state produces no revision-create,
revision-update, or close mutation on the second call. The original claim
of zero remote mutations fails: in the head-unchanged state the source
re-runs report and comment mirroring on every call, so diff-property sets
(and comment posts, and diff-create attempts the remote refuses) can
recur on the second call. -/
theorem EnsureRequestExists_second_call_no_lifecycle (cfg : Config) (st : RemoteState)
    (closedRevisions : List String) (r : Review) :
    ((EnsureRequestExists cfg (EnsureRequestExists cfg st closedRevisions r).2.1
        (EnsureRequestExists cfg st closedRevisions r).2.2 r).1).all
      (fun m => !isLifecycleMutation m) = true := by
  rw [List.all_eq_true]
  suffices h : ∀ m ∈ (EnsureRequestExists cfg
      (EnsureRequestExists cfg st closedRevisions r).2.1
      (EnsureRequestExists cfg st closedRevisions r).2.2 r).1,
      isLifecycleMutation m = false by
    intro m hm
    rw [h m hm]
    rfl
  by_cases hc : closedRevisions.contains r.revision = true
  · have hcall1 := ensure_eq_of_cacheHit cfg st closedRevisions r hc
    have h21 : (EnsureRequestExists cfg st closedRevisions r).2.1 = st := by rw [hcall1]
    have h22 : (EnsureRequestExists cfg st closedRevisions r).2.2 = closedRevisions := by
      rw [hcall1]
    rw [h21, h22, ensure_eq_of_cacheHit cfg st closedRevisions r hc]
    intro m hm
    simp at hm
  · have hc' : closedRevisions.contains r.revision = false := Bool.eq_false_iff.mpr hc
    cases hsub : r.submitted
    · cases hbase : cfg.baseCommit with
      | none =>
        have hcall1 := ensure_eq_of_base_none cfg st closedRevisions r hc' hsub hbase
        have h21 : (EnsureRequestExists cfg st closedRevisions r).2.1 = st := by rw [hcall1]
        have h22 : (EnsureRequestExists cfg st closedRevisions r).2.2 = closedRevisions := by
          rw [hcall1]
        rw [h21, h22, ensure_eq_of_base_none cfg st closedRevisions r hc' hsub hbase]
        intro m hm
        simp at hm
      | some base =>
        cases hhead : cfg.headCommit with
        | none =>
          have hcall1 := ensure_eq_of_head_none cfg st closedRevisions r base hc' hsub hbase hhead
          have h21 : (EnsureRequestExists cfg st closedRevisions r).2.1 = st := by rw [hcall1]
          have h22 : (EnsureRequestExists cfg st closedRevisions r).2.2 = closedRevisions := by
            rw [hcall1]
          rw [h21, h22, ensure_eq_of_head_none cfg st closedRevisions r base hc' hsub hbase hhead]
          intro m hm
          simp at hm
        | some head =>
          cases hempty : (listDifferentialReviews st r.revision).isEmpty
          · -- existing remote revisions: the first call stabilizes every
            -- revision matching the query, so the second call only mirrors
            -- or re-attempts refused diffs.
            have hcall1 := ensure_eq_of_existing cfg st closedRevisions r base head hc' hsub
              hbase hhead hempty
            have h21 : (EnsureRequestExists cfg st closedRevisions r).2.1 =
                (updateAllReviewDiffs cfg r.request r head st
                  (listDifferentialReviews st r.revision)).2 := by rw [hcall1]
            have h22 : (EnsureRequestExists cfg st closedRevisions r).2.2 = closedRevisions := by
              rw [hcall1]
            rw [h21, h22]
            have hpost := updateAllReviewDiffs_stabilizes cfg r.request r head r.revision
              (listDifferentialReviews st r.revision) st
              (fun v hv hmatch =>
                Or.inl ((listDifferentialReviews_mem st r.revision v).mpr ⟨hv, hmatch⟩))
            have hstable : ∀ dr ∈ listDifferentialReviews
                (updateAllReviewDiffs cfg r.request r head st
                  (listDifferentialReviews st r.revision)).2 r.revision,
                stableFor cfg r.request head dr := by
              intro dr hdr
              have hdr' := (listDifferentialReviews_mem _ r.revision dr).mp hdr
              exact hpost dr hdr'.1 hdr'.2
            rcases updateAllReviewDiffs_growth cfg r.request r head
              (listDifferentialReviews st r.revision) st with ⟨g, hg, hrev⟩
            have hL1 : ∃ v, v ∈ listDifferentialReviews st r.revision := by
              cases hL : listDifferentialReviews st r.revision with
              | nil => rw [hL] at hempty; simp at hempty
              | cons v rest => exact ⟨v, hL ▸ List.mem_cons_self v rest⟩
            rcases hL1 with ⟨v, hv⟩
            have hv' := (listDifferentialReviews_mem st r.revision v).mp hv
            have hgv : g v ∈ listDifferentialReviews
                (updateAllReviewDiffs cfg r.request r head st
                  (listDifferentialReviews st r.revision)).2 r.revision := by
              refine (listDifferentialReviews_mem _ r.revision (g v)).mpr ⟨?_, ?_⟩
              · rw [hrev]
                exact List.mem_map_of_mem g hv'.1
              · exact hashesContain_of_growth head r.revision v (g v) (hg v) hv'.2
            exact second_call_no_lifecycle_of_stable cfg _ closedRevisions r base head hc'
              hsub hbase hhead hstable (isEmpty_false_of_mem hgv)
          · -- no existing remote revision
            cases href : cfg.diffRefused base r.revision
            · -- diff created, revision created: the fresh revision matches
              -- the query, and the first update pass stabilizes everything.
              have hcall1 := ensure_eq_of_create_success cfg st closedRevisions r base head
                hc' hsub hbase hhead hempty href
              have h21 : (EnsureRequestExists cfg st closedRevisions r).2.1 =
                  (updateAllReviewDiffs cfg r.request r head (createdState cfg st r)
                    (listDifferentialReviews (createdState cfg st r) r.revision)).2 := by
                rw [hcall1]
              have h22 : (EnsureRequestExists cfg st closedRevisions r).2.2 =
                  closedRevisions := by rw [hcall1]
              rw [h21, h22]
              have hpost := updateAllReviewDiffs_stabilizes cfg r.request r head r.revision
                (listDifferentialReviews (createdState cfg st r) r.revision)
                (createdState cfg st r)
                (fun v hv hmatch =>
                  Or.inl ((listDifferentialReviews_mem (createdState cfg st r) r.revision v).mpr
                    ⟨hv, hmatch⟩))
              have hstable : ∀ dr ∈ listDifferentialReviews
                  (updateAllReviewDiffs cfg r.request r head (createdState cfg st r)
                    (listDifferentialReviews (createdState cfg st r) r.revision)).2 r.revision,
                  stableFor cfg r.request head dr := by
                intro dr hdr
                have hdr' := (listDifferentialReviews_mem _ r.revision dr).mp hdr
                exact hpost dr hdr'.1 hdr'.2
              rcases updateAllReviewDiffs_growth cfg r.request r head
                (listDifferentialReviews (createdState cfg st r) r.revision)
                (createdState cfg st r) with ⟨g, hg, hrev⟩
              rcases createdState_has_revision cfg st r with ⟨v, hvmem, hvmatch⟩
              have hgv : g v ∈ listDifferentialReviews
                  (updateAllReviewDiffs cfg r.request r head (createdState cfg st r)
                    (listDifferentialReviews (createdState cfg st r) r.revision)).2
                  r.revision := by
                refine (listDifferentialReviews_mem _ r.revision (g v)).mpr ⟨?_, ?_⟩
                · rw [hrev]
                  exact List.mem_map_of_mem g hvmem
                · exact hashesContain_of_growth head r.revision v (g v) (hg v) hvmatch
              exact second_call_no_lifecycle_of_stable cfg _ closedRevisions r base head hc'
                hsub hbase hhead hstable (isEmpty_false_of_mem hgv)
            · -- the remote refused the diff: the first call changed nothing,
              -- and the second call repeats the refused attempt only.
              have hcall1 := ensure_eq_of_create_refused cfg st closedRevisions r base head
                hc' hsub hbase hhead hempty href
              have h21 : (EnsureRequestExists cfg st closedRevisions r).2.1 = st := by
                rw [hcall1]
              have h22 : (EnsureRequestExists cfg st closedRevisions r).2.2 =
                  closedRevisions := by rw [hcall1]
              rw [h21, h22, ensure_eq_of_create_refused cfg st closedRevisions r base head
                hc' hsub hbase hhead hempty href]
              intro m hm
              rcases List.mem_singleton.mp hm with rfl
              rfl
    · -- submitted: the first call put the revision into the cache, and the
      -- second call short-circuits on it.
      have hcall1 := ensure_eq_of_submitted cfg st closedRevisions r hc' hsub
      have h22 : (EnsureRequestExists cfg st closedRevisions r).2.2 =
          r.revision :: closedRevisions := by rw [hcall1]
      have hc2 : (r.revision :: closedRevisions).contains r.revision = true := by simp
      rw [h22, ensure_eq_of_cacheHit cfg _ (r.revision :: closedRevisions) r hc2]
      intro m hm
      simp at hm

/-- Claim C1 counterexample: with an unchanged local review whose remote
revision already contains the head commit and whose head commit carries a
CI report with a URL, the second EnsureRequestExists call still issues a
remote mutation (it re-posts the arc:unit diff property). -/
theorem EnsureRequestExists_second_call_counterexample :
    (EnsureRequestExists ciConfig
        (EnsureRequestExists ciConfig sampleRemoteState [] sampleReview).2.1
        (EnsureRequestExists ciConfig sampleRemoteState [] sampleReview).2.2
        sampleReview).1 =
      [Mutation.setUnitProperty 7
        { name := "ci", link := "http://ci/1", result := "pass" }] ∧
    (EnsureRequestExists ciConfig
        (EnsureRequestExists ciConfig sampleRemoteState [] sampleReview).2.1
        (EnsureRequestExists ciConfig sampleRemoteState [] sampleReview).2.2
        sampleReview).1 ≠ [] := by
  constructor
  · decide
  · decide
